import Mathlib

/-!
Verification of the adaptive anomaly-scoring core of the noisy_pi repository
(src/capture/anomaly.py together with the configuration surface in
src/capture/config.py).

The Python classes are shallowly embedded:
* `TimeOfWeekProfile` with its 7 × time_bins grid of `(sum, sum_sq, count)`
  accumulator bins, 2D Gaussian-kernel `add_sample` / `get_expected`;
* `RollingBaseline`, a bounded FIFO window with memoized statistics;
* `HybridAnomalyDetector.compute_anomaly_score`, the score-fusion engine.

Python floats are modelled as real numbers, `None` as `Option.none`,
`math.exp` as `Real.exp`, `math.sqrt` as `Real.sqrt`.  The nested
`for day_offset ... for time_offset ...` loops of the source are modelled as
left folds over the row-major list `offsetPairs` of the very same
`(day_offset, time_offset)` pairs.  `datetime.fromtimestamp` is modelled at
UTC: the Unix epoch day (1970-01-01) is a Thursday, `weekday()` 3.
`round(x, 2)` is round-half-to-even at two decimals (`pyRound2`).
-/

noncomputable section

namespace NoisyPi

/-- An accumulator cell of the seasonal grid: `(sum, sum_squared, count)`. -/
abbrev Bin := ℝ × ℝ × ℝ

/-- Python's `round` to an integer: round half to even (banker's rounding). -/
def pyRoundInt (y : ℝ) : ℤ :=
  if Int.fract y < 1/2 then ⌊y⌋
  else if 1/2 < Int.fract y then ⌊y⌋ + 1
  else if Even ⌊y⌋ then ⌊y⌋ else ⌊y⌋ + 1

/-- Python's `float(round(x, 2))`: round to two decimal places. -/
def pyRound2 (x : ℝ) : ℝ := (pyRoundInt (100 * x) : ℝ) / 100

/-- `TimeOfWeekProfile._day_distance` (src/capture/anomaly.py:69-86):
circular distance on the 7 days plus a 0.5 penalty when exactly one of the
two days is a weekday (0-4). -/
def day_distance (day1 day2 : ℤ) : ℚ :=
  let is_weekday1 : Bool := decide (day1 < 5)
  let is_weekday2 : Bool := decide (day2 < 5)
  let raw_dist : ℚ := ((min |day1 - day2| (7 - |day1 - day2|) : ℤ) : ℚ)
  if is_weekday1 ≠ is_weekday2 then raw_dist + 1/2 else raw_dist

/-- State of `TimeOfWeekProfile` (src/capture/anomaly.py:20-49).  The bin grid
is a total function on `ℤ × ℤ` indices; the code only ever reads and writes
indices already reduced `% 7` and `% time_bins`. -/
structure TimeOfWeekProfile where
  time_bins : ℕ
  time_sigma : ℝ
  day_sigma : ℝ
  bin_minutes : ℕ
  bins : ℤ → ℤ → Bin

/-- `TimeOfWeekProfile.__init__`: all bins start at `(0.0, 0.0, 0)`. -/
def mkProfile (time_bins : ℕ) (time_sigma day_sigma : ℝ) : TimeOfWeekProfile :=
  ⟨time_bins, time_sigma, day_sigma, 24 * 60 / time_bins, fun _ _ => (0, 0, 0)⟩

/-- The profile constructed by `HybridAnomalyDetector.__init__`
(48 bins, time_sigma 2.0, day_sigma 1.0). -/
def standardProfile : TimeOfWeekProfile := mkProfile 48 2 1

/-- `TimeOfWeekProfile._timestamp_to_coords` (src/capture/anomaly.py:51-61):
`(day_of_week, time_bin, time_fraction)`; `int(exact_bin)` is truncation,
which on the nonnegative `minutes / bin_minutes` is natural division. -/
def TimeOfWeekProfile.timestamp_to_coords (p : TimeOfWeekProfile) (timestamp : ℕ) :
    ℤ × ℤ × ℚ :=
  let day : ℤ := (((timestamp / 86400 : ℕ) : ℤ) + 3) % 7
  let minutes : ℕ := timestamp % 86400 / 60
  let time_bin : ℤ := ((minutes / p.bin_minutes : ℕ) : ℤ) % (p.time_bins : ℤ)
  let time_frac : ℚ := (minutes : ℚ) / (p.bin_minutes : ℚ) - ((minutes / p.bin_minutes : ℕ) : ℚ)
  (day, time_bin, time_frac)

/-- `TimeOfWeekProfile._gaussian_weight` (src/capture/anomaly.py:63-67). -/
def TimeOfWeekProfile.gaussian_weight (p : TimeOfWeekProfile) (time_dist day_dist : ℝ) : ℝ :=
  Real.exp (-(1/2) * (time_dist / p.time_sigma)^2) *
    Real.exp (-(1/2) * (day_dist / p.day_sigma)^2)

/-- The day offsets `range(-2, 3)` of the smoothing loops. -/
def dayOffsets : List ℤ := [-2, -1, 0, 1, 2]

/-- The time offsets `range(-3, 4)` of the smoothing loops. -/
def timeOffsets : List ℤ := [-3, -2, -1, 0, 1, 2, 3]

/-- The `(day_offset, time_offset)` pairs of the nested smoothing loops, in
the row-major order the source iterates them. -/
def offsetPairs : List (ℤ × ℤ) :=
  dayOffsets.flatMap fun dOff => timeOffsets.map fun tOff => (dOff, tOff)

/-- The grid index `(target_day, target_time)` touched for one offset pair. -/
def binKey (time_bins day time_bin : ℤ) (pr : ℤ × ℤ) : ℤ × ℤ :=
  ((day + pr.1) % 7, (time_bin + pr.2) % time_bins)

/-- One iteration of the `add_sample` double loop
(src/capture/anomaly.py:96-112): weight the sample by the 2D Gaussian kernel
and, when the weight exceeds 0.01, accumulate into the target bin. -/
def addStep (p : TimeOfWeekProfile) (day time_bin : ℤ) (time_frac : ℚ) (mean_db : ℝ)
    (b : ℤ → ℤ → Bin) (pr : ℤ × ℤ) : ℤ → ℤ → Bin :=
  let target_day : ℤ := (day + pr.1) % 7
  let day_dist : ℝ := ((day_distance day target_day : ℚ) : ℝ)
  let target_time : ℤ := (time_bin + pr.2) % (p.time_bins : ℤ)
  let time_dist : ℝ := |(pr.2 : ℝ) - ((time_frac : ℚ) : ℝ) + 1/2|
  let weight := p.gaussian_weight time_dist day_dist
  if 1/100 < weight then
    fun D T =>
      if D = target_day ∧ T = target_time then
        ((b D T).1 + mean_db * weight, (b D T).2.1 + mean_db^2 * weight, (b D T).2.2 + weight)
      else b D T
  else b

/-- `TimeOfWeekProfile.add_sample` (src/capture/anomaly.py:88-112); a `None`
sample is ignored. -/
def TimeOfWeekProfile.add_sample (p : TimeOfWeekProfile) (timestamp : ℕ)
    (mean_db : Option ℝ) : TimeOfWeekProfile :=
  match mean_db with
  | none => p
  | some v =>
    let c := p.timestamp_to_coords timestamp
    { p with bins := offsetPairs.foldl (addStep p c.1 c.2.1 c.2.2 v) p.bins }

/-- One iteration of the `get_expected` double loop
(src/capture/anomaly.py:125-142): skip bins with accumulated count below 0.5,
otherwise accumulate the count-weighted kernel average.  The accumulator is
`(weighted_sum, weighted_sq_sum, total_weight)`. -/
def queryStep (p : TimeOfWeekProfile) (b : ℤ → ℤ → Bin) (day time_bin : ℤ) (time_frac : ℚ)
    (acc : ℝ × ℝ × ℝ) (pr : ℤ × ℤ) : ℝ × ℝ × ℝ :=
  let target_day : ℤ := (day + pr.1) % 7
  let day_dist : ℝ := ((day_distance day target_day : ℚ) : ℝ)
  let target_time : ℤ := (time_bin + pr.2) % (p.time_bins : ℤ)
  let bn := b target_day target_time
  if bn.2.2 < 1/2 then acc
  else
    let time_dist : ℝ := |(pr.2 : ℝ) - ((time_frac : ℚ) : ℝ) + 1/2|
    let weight := p.gaussian_weight time_dist day_dist * bn.2.2
    let bin_mean := bn.1 / bn.2.2
    (acc.1 + bin_mean * weight, acc.2.1 + bn.2.1 / bn.2.2 * weight, acc.2.2 + weight)

/-- The contribution of a single offset pair to the `get_expected`
accumulator (zero when the bin is cold). -/
def queryContrib (p : TimeOfWeekProfile) (b : ℤ → ℤ → Bin) (day time_bin : ℤ) (time_frac : ℚ)
    (pr : ℤ × ℤ) : ℝ × ℝ × ℝ :=
  let target_day : ℤ := (day + pr.1) % 7
  let day_dist : ℝ := ((day_distance day target_day : ℚ) : ℝ)
  let target_time : ℤ := (time_bin + pr.2) % (p.time_bins : ℤ)
  let bn := b target_day target_time
  if bn.2.2 < 1/2 then (0, 0, 0)
  else
    let time_dist : ℝ := |(pr.2 : ℝ) - ((time_frac : ℚ) : ℝ) + 1/2|
    let weight := p.gaussian_weight time_dist day_dist * bn.2.2
    (bn.1 / bn.2.2 * weight, bn.2.1 / bn.2.2 * weight, weight)

/-- `TimeOfWeekProfile.get_expected` (src/capture/anomaly.py:114-151):
`(None, None)` (here `none`) when the total accumulated weight is below 3,
otherwise the interpolated `(expected_mean, expected_std)` with the
degenerate-variance fallback std of 5.0. -/
def TimeOfWeekProfile.get_expected (p : TimeOfWeekProfile) (timestamp : ℕ) :
    Option (ℝ × ℝ) :=
  let c := p.timestamp_to_coords timestamp
  let acc := offsetPairs.foldl (queryStep p p.bins c.1 c.2.1 c.2.2) (0, 0, 0)
  if acc.2.2 < 3 then none
  else
    let expected_mean := acc.1 / acc.2.2
    let expected_var := max 0 (acc.2.1 / acc.2.2 - expected_mean^2)
    let expected_std := if 0 < expected_var then Real.sqrt expected_var else 5
    some (expected_mean, expected_std)

/-- Replace one grid cell by the empty accumulator `(0, 0, 0)`. -/
def TimeOfWeekProfile.zeroBin (p : TimeOfWeekProfile) (D T : ℤ) : TimeOfWeekProfile :=
  { p with bins := fun d t => if d = D ∧ t = T then (0, 0, 0) else p.bins d t }

/-- State of `RollingBaseline` (src/capture/anomaly.py:186-195): a
`deque(maxlen=window_size)` of values plus the memoized stats. -/
structure RollingBaseline where
  window_size : ℕ
  values : List ℝ
  cachedStats : Option (ℝ × ℝ)

/-- `RollingBaseline.__init__`. -/
def mkRollingBaseline (window_size : ℕ) : RollingBaseline := ⟨window_size, [], none⟩

/-- Append to a `deque(maxlen=W)`: the window keeps the last `W` appended
values, silently dropping the oldest. -/
def pushMax {α : Type} (W : ℕ) (l : List α) (v : α) : List α :=
  let l2 := l ++ [v]
  l2.drop (l2.length - W)

/-- `RollingBaseline.add_value` (src/capture/anomaly.py:197-201): ignore
`None`, otherwise append and invalidate the memoized stats. -/
def RollingBaseline.add_value (rb : RollingBaseline) (mean_db : Option ℝ) : RollingBaseline :=
  match mean_db with
  | none => rb
  | some v => { rb with values := pushMax rb.window_size rb.values v, cachedStats := none }

/-- Fold a list of plain values into a rolling baseline. -/
def RollingBaseline.addMany (rb : RollingBaseline) (l : List ℝ) : RollingBaseline :=
  l.foldl (fun r x => r.add_value (some x)) rb

/-- The statistics recomputation of `RollingBaseline.get_stats`
(src/capture/anomaly.py:211-215): mean, and the square root of the
Bessel-corrected sample variance (`n - 1` denominator, fallback 25). -/
def statsOf (values : List ℝ) : ℝ × ℝ :=
  let n : ℝ := (values.length : ℝ)
  let mean := values.sum / n
  let variance :=
    if 1 < values.length then ((values.map fun x => (x - mean)^2).sum) / (n - 1) else 25
  (mean, Real.sqrt variance)

/-- Mean of a list of reals (specification shorthand). -/
def listMean (l : List ℝ) : ℝ := l.sum / (l.length : ℝ)

/-- Bessel-corrected sample variance of a list of reals (specification
shorthand). -/
def besselVar (l : List ℝ) : ℝ :=
  ((l.map fun x => (x - listMean l)^2).sum) / ((l.length : ℝ) - 1)

/-- `RollingBaseline.get_stats` (src/capture/anomaly.py:203-218): `none` below
5 values; otherwise return the memoized stats when present, else recompute
and memoize.  The possibly updated state is returned alongside the result. -/
def RollingBaseline.get_stats (rb : RollingBaseline) : Option (ℝ × ℝ) × RollingBaseline :=
  if rb.values.length < 5 then (none, rb)
  else
    match rb.cachedStats with
    | some st => (some st, rb)
    | none =>
      let st := statsOf rb.values
      (some st, { rb with cachedStats := some st })

/-- State of `HybridAnomalyDetector` (src/capture/anomaly.py:221-240). -/
structure HybridAnomalyDetector where
  time_profile : TimeOfWeekProfile
  rolling : RollingBaseline

/-- The detector state `HybridAnomalyDetector.__init__` builds: the standard
profile plus a rolling baseline of the given window size. -/
def mkDetector (window_size : ℕ) : HybridAnomalyDetector :=
  ⟨standardProfile, mkRollingBaseline window_size⟩

/-- A freshly constructed detector with the documented default window 50,
before any `add_measurement` and with no history loaded. -/
def freshDetector : HybridAnomalyDetector := mkDetector 50

/-- `next((s for n, s in scores if n == tag), 0)`. -/
def findScore (scores : List (String × ℝ)) (tag : String) : ℝ :=
  ((scores.find? fun pr => pr.1 == tag).map Prod.snd).getD 0

/-- The two-signal fusion of `compute_anomaly_score`
(src/capture/anomaly.py:303-315): 70% of the larger z-score plus 30% of the
smaller, rounded to two decimals. -/
def fuseScores (rolling_score time_score : ℝ) : ℝ :=
  let max_score := max rolling_score time_score
  let min_score := min rolling_score time_score
  pyRound2 (7/10 * max_score + 3/10 * min_score)

/-- `HybridAnomalyDetector.compute_anomaly_score`
(src/capture/anomaly.py:270-315).  A `None` level scores 0.0 immediately;
otherwise each baseline that answers contributes a z-score
`|level - mean| / max(std, 1.0)`, and the empty / single / double score list
yields 0.0, the rounded single score, or the fused score respectively.
The call to `get_stats` may fill the memoized-stats cache, so the (possibly
updated) detector state is returned alongside the score. -/
def HybridAnomalyDetector.compute_anomaly_score (d : HybridAnomalyDetector)
    (timestamp : ℕ) (mean_db : Option ℝ) : ℝ × HybridAnomalyDetector :=
  match mean_db with
  | none => (0, d)
  | some v =>
    let rs := d.rolling.get_stats
    let scoresR : List (String × ℝ) :=
      match rs.1 with
      | none => []
      | some ms => [("rolling", |v - ms.1| / max ms.2 1)]
    let scores : List (String × ℝ) :=
      match d.time_profile.get_expected timestamp with
      | none => scoresR
      | some ms => scoresR ++ [("time", |v - ms.1| / max ms.2 1)]
    let score :=
      match scores with
      | [] => 0
      | [single] => pyRound2 single.2
      | _ => fuseScores (findScore scores "rolling") (findScore scores "time")
    (score, { d with rolling := rs.2 })

/-- `HybridAnomalyDetector.add_measurement` (src/capture/anomaly.py:263-268):
ignore `None`, otherwise update both baselines. -/
def HybridAnomalyDetector.add_measurement (d : HybridAnomalyDetector) (timestamp : ℕ)
    (mean_db : Option ℝ) : HybridAnomalyDetector :=
  match mean_db with
  | none => d
  | some v =>
    { d with rolling := d.rolling.add_value (some v),
             time_profile := d.time_profile.add_sample timestamp (some v) }

/-! ### The configuration surface (src/capture/config.py)

`HybridAnomalyDetector.__init__` (src/capture/anomaly.py:238) calls
`config.get_config_value('baseline_window_size', 50)`.  Python resolves
`config.get_config_value` by attribute lookup on the `capture.config`
module; the names bound at module level of src/capture/config.py are listed
below.  A missing attribute raises `AttributeError`. -/

/-- Every name bound at module level in src/capture/config.py (imports,
constants and the two functions). -/
def configModuleAttrs : List String :=
  ["os", "json", "Path",
   "INSTALL_DIR", "DATA_DIR", "LOG_DIR", "DB_PATH",
   "SAMPLE_RATE", "CHANNELS", "BLOCK_SIZE",
   "FILE_WATCH_MODE", "BIRDNET_STREAM_DIR", "FILE_WATCH_POLL_INTERVAL", "FILE_SETTLE_TIME",
   "FFT_BINS", "SNAPSHOT_DURATION", "SNAPSHOTS_PER_INTERVAL", "MEASUREMENT_INTERVAL",
   "FREQ_MIN", "FREQ_MAX", "DB_MIN", "DB_MAX", "A_WEIGHT_REF",
   "ANOMALY_THRESHOLD", "BASELINE_MIN_SAMPLES", "WEB_PORT",
   "SAVE_ANOMALY_SNIPPETS", "SNIPPET_DURATION", "SNIPPET_THRESHOLD", "SNIPPET_FORMAT",
   "SNIPPET_DIR", "load_config_file", "get_config"]

/-- `HybridAnomalyDetector()` as the code executes it: the constructor looks
up `get_config_value` on the config module; were it present it would produce
the intended window-50 detector, otherwise the construction raises
`AttributeError`. -/
def HybridAnomalyDetector.construct : Except String HybridAnomalyDetector :=
  if "get_config_value" ∈ configModuleAttrs then Except.ok (mkDetector 50)
  else Except.error "AttributeError: module capture.config has no attribute get_config_value"

/-! ### A Python-float-level model of `add_value` for the NaN guard

The `add_*` methods test `mean_db is None` only.  A float NaN is not `None`,
so it passes the guard.  To express this, `PyFloat` distinguishes NaN from
finite values; `RollingBaselinePy.add_value` is `RollingBaseline.add_value`
at this value type, with the very same `is None` test. -/

/-- A Python float: NaN or a finite value. -/
inductive PyFloat where
  | nan : PyFloat
  | num : ℝ → PyFloat

/-- `RollingBaseline` over Python-float levels. -/
structure RollingBaselinePy where
  window_size : ℕ
  values : List PyFloat
  cachedStats : Option (PyFloat × PyFloat)

/-- `RollingBaseline.__init__` over Python-float levels. -/
def mkRollingBaselinePy (window_size : ℕ) : RollingBaselinePy := ⟨window_size, [], none⟩

/-- `RollingBaseline.add_value` over Python-float levels: only `None` is
filtered; a NaN value is appended like any other float. -/
def RollingBaselinePy.add_value (rb : RollingBaselinePy) (mean_db : Option PyFloat) :
    RollingBaselinePy :=
  match mean_db with
  | none => rb
  | some v => { rb with values := pushMax rb.window_size rb.values v, cachedStats := none }

/-! ### Division-guard instrumented variants (claim C10)

Each variant recomputes exactly what the original computes and additionally
returns `false` as soon as any division site is reached with a zero
denominator. -/

/-- `statsOf` with division checks on `n` and `n - 1`. -/
def statsOfChk (values : List ℝ) : (ℝ × ℝ) × Bool :=
  let n : ℝ := (values.length : ℝ)
  let ok1 : Bool := if n = 0 then false else true
  let mean := values.sum / n
  if 1 < values.length then
    ((mean, Real.sqrt (((values.map fun x => (x - mean)^2).sum) / (n - 1))),
      if n - 1 = 0 then false else ok1)
  else ((mean, Real.sqrt 25), ok1)

/-- `RollingBaseline.get_stats` with division checks. -/
def RollingBaseline.get_statsChk (rb : RollingBaseline) :
    (Option (ℝ × ℝ) × RollingBaseline) × Bool :=
  if rb.values.length < 5 then ((none, rb), true)
  else
    match rb.cachedStats with
    | some st => ((some st, rb), true)
    | none =>
      let st := statsOfChk rb.values
      ((some st.1, { rb with cachedStats := some st.1 }), st.2)

/-- One `get_expected` iteration with a division check on the bin count. -/
def queryStepChk (p : TimeOfWeekProfile) (b : ℤ → ℤ → Bin) (day time_bin : ℤ)
    (time_frac : ℚ) (acc : (ℝ × ℝ × ℝ) × Bool) (pr : ℤ × ℤ) : (ℝ × ℝ × ℝ) × Bool :=
  let target_day : ℤ := (day + pr.1) % 7
  let day_dist : ℝ := ((day_distance day target_day : ℚ) : ℝ)
  let target_time : ℤ := (time_bin + pr.2) % (p.time_bins : ℤ)
  let bn := b target_day target_time
  if bn.2.2 < 1/2 then acc
  else
    let time_dist : ℝ := |(pr.2 : ℝ) - ((time_frac : ℚ) : ℝ) + 1/2|
    let weight := p.gaussian_weight time_dist day_dist * bn.2.2
    let bin_mean := bn.1 / bn.2.2
    ((acc.1.1 + bin_mean * weight, acc.1.2.1 + bn.2.1 / bn.2.2 * weight, acc.1.2.2 + weight),
      if bn.2.2 = 0 then false else acc.2)

/-- `TimeOfWeekProfile.get_expected` with division checks on the bin counts
and on the total weight. -/
def TimeOfWeekProfile.get_expectedChk (p : TimeOfWeekProfile) (timestamp : ℕ) :
    Option (ℝ × ℝ) × Bool :=
  let c := p.timestamp_to_coords timestamp
  let accb := offsetPairs.foldl (queryStepChk p p.bins c.1 c.2.1 c.2.2) ((0, 0, 0), true)
  let acc := accb.1
  if acc.2.2 < 3 then (none, accb.2)
  else
    let expected_mean := acc.1 / acc.2.2
    let expected_var := max 0 (acc.2.1 / acc.2.2 - expected_mean^2)
    let expected_std := if 0 < expected_var then Real.sqrt expected_var else 5
    (some (expected_mean, expected_std), if acc.2.2 = 0 then false else accb.2)

/-- `compute_anomaly_score` with division checks on the z-score denominators
`max std 1.0` (the baseline queries are themselves checked separately). -/
def HybridAnomalyDetector.compute_anomaly_scoreChk (d : HybridAnomalyDetector)
    (timestamp : ℕ) (mean_db : Option ℝ) : (ℝ × HybridAnomalyDetector) × Bool :=
  match mean_db with
  | none => ((0, d), true)
  | some v =>
    let rs := d.rolling.get_stats
    let okR : Bool :=
      match rs.1 with
      | none => true
      | some ms => if max ms.2 1 = 0 then false else true
    let scoresR : List (String × ℝ) :=
      match rs.1 with
      | none => []
      | some ms => [("rolling", |v - ms.1| / max ms.2 1)]
    let okT : Bool :=
      match d.time_profile.get_expected timestamp with
      | none => okR
      | some ms => if max ms.2 1 = 0 then false else okR
    let scores : List (String × ℝ) :=
      match d.time_profile.get_expected timestamp with
      | none => scoresR
      | some ms => scoresR ++ [("time", |v - ms.1| / max ms.2 1)]
    let score :=
      match scores with
      | [] => 0
      | [single] => pyRound2 single.2
      | _ => fuseScores (findScore scores "rolling") (findScore scores "time")
    ((score, { d with rolling := rs.2 }), okT)

/-! ### Auxiliary views of the kernel computations -/

/-- The combined 2D Gaussian weight of one offset pair, as both the
`add_sample` and the `get_expected` loop compute it for a query anchored at
`(day, time_frac)`. -/
def weightOf (p : TimeOfWeekProfile) (day : ℤ) (time_frac : ℚ) (pr : ℤ × ℤ) : ℝ :=
  p.gaussian_weight (|(pr.2 : ℝ) - ((time_frac : ℚ) : ℝ) + 1/2|)
    ((day_distance day ((day + pr.1) % 7) : ℚ) : ℝ)

/-- The three `get_expected` accumulators, written as sums of the per-pair
contributions. -/
def queryTotals (p : TimeOfWeekProfile) (b : ℤ → ℤ → Bin) (day time_bin : ℤ)
    (time_frac : ℚ) : ℝ × ℝ × ℝ :=
  ((offsetPairs.map fun pr => (queryContrib p b day time_bin time_frac pr).1).sum,
   (offsetPairs.map fun pr => (queryContrib p b day time_bin time_frac pr).2.1).sum,
   (offsetPairs.map fun pr => (queryContrib p b day time_bin time_frac pr).2.2).sum)

/-- The final step of `get_expected` as a function of the accumulators. -/
def expectedFromTotals (acc : ℝ × ℝ × ℝ) : Option (ℝ × ℝ) :=
  if acc.2.2 < 3 then none
  else
    some (acc.1 / acc.2.2,
      if 0 < max 0 (acc.2.1 / acc.2.2 - (acc.1 / acc.2.2)^2) then
        Real.sqrt (max 0 (acc.2.1 / acc.2.2 - (acc.1 / acc.2.2)^2))
      else 5)

/-! ### Rational certificates for the single-sample seasonal query (claim C5)

For the standard profile the Gaussian weight of an offset pair is
`exp (-q)` with `q = td^2/8 + dd^2/2`, `td` the kernel time distance and
`dd` the day distance.  With fractional position `k/30` (`k < 30`) and
`dd ∈ {0, 1}`, `q` is the integer `numA` divided by `28800`; `lbPoly q`,
a rational lower bound for `exp (-q)` on `[0, 1]`, is the integer
`lbNum numA` divided by `96 * 28800^4`.  All certificate checks are
therefore decidable integer comparisons. -/

/-- The kernel time distance `abs(time_offset - time_frac + 0.5)` in exact
rational arithmetic. -/
def timeDistQ (tOff : ℤ) (time_frac : ℚ) : ℚ := |(tOff : ℚ) - time_frac + 1/2|

/-- A rational lower-bound polynomial for `Real.exp (-q)` on `0 ≤ q ≤ 1`
(degree-4 Taylor truncation minus the `Real.exp_bound` remainder). -/
def lbPoly (q : ℚ) : ℚ := 1 - q + q^2/2 - q^3/6 - q^4 * (5/96)

/-- The exponent `q` in `exp (-q)` for the combined 2D Gaussian weight
`exp(-(td/2)^2/2) * exp(-(dd/1)^2/2)` at fractional position `k/30` and day
distance `dd`. -/
def qExp (dd : ℚ) (tOff : ℤ) (k : ℕ) : ℚ :=
  (timeDistQ tOff ((k : ℚ) / 30))^2 / 8 + dd^2 / 2

/-- The common denominator `28800 = 8 * 60^2` of the exponents `qExp`. -/
def scaleD : ℤ := 28800

/-- `28800 * qExp dd tOff k` as an integer, for `dd^2 = dd2`. -/
def numA (dd2 : ℤ) (tOff : ℤ) (k : ℕ) : ℤ :=
  (60 * tOff - 2 * (k : ℤ) + 30)^2 + 14400 * dd2

/-- `96 * 28800^4 * lbPoly (a / 28800)` as an integer. -/
def lbNum (a : ℤ) : ℤ :=
  96 * scaleD^4 - 96 * scaleD^3 * a + 48 * scaleD^2 * a^2 - 16 * scaleD * a^3 - 5 * a^4

/-- Decidable certificate that the offset `tOff` is provably warm for
fractional position `k/30` and day distance with square `dd2`:
`qExp ≤ 1` and `lbPoly qExp ≥ 1/2`, as integer comparisons. -/
def certOK (dd2 : ℤ) (tOff : ℤ) (k : ℕ) : Bool :=
  decide (numA dd2 tOff k ≤ scaleD) &&
    decide (96 * scaleD^4 ≤ 2 * lbNum (numA dd2 tOff k))

/-- The certified integer-scaled square `(96 * 28800^4 * lbPoly qExp)^2` of
one offset's weight lower bound (0 when not certified). -/
def certTermZ (dd2 : ℤ) (tOff : ℤ) (k : ℕ) : ℤ :=
  if certOK dd2 tOff k then (lbNum (numA dd2 tOff k))^2 else 0

/-- Sum of the certified integer-scaled squares over one day row. -/
def certSumZ (dd2 : ℤ) (k : ℕ) : ℤ := (timeOffsets.map fun tOff => certTermZ dd2 tOff k).sum

/-- The certified rational part of the single-sample total query weight
contributed by one day row (day distance squared `dd2`): the sum over time
offsets of `lbPoly(qExp)^2` for the offsets whose weight is provably at
least 1/2. -/
def certifiedRow (dd2 : ℤ) (k : ℕ) : ℚ :=
  (timeOffsets.map fun tOff =>
    if certOK dd2 tOff k then
      ((lbNum (numA dd2 tOff k) : ℚ) / (96 * (28800:ℚ)^4))^2 else 0).sum

/-- A same-class neighbouring day (day distance exactly 1) for each day of
the week. -/
def neighborDay (d : ℤ) : ℤ := if d = 0 ∨ d = 5 then 1 else -1

/-- The contribution of one offset pair to the total query weight after a
single sample: the bin holds count `w` (its own kernel weight), so it
contributes `w * w` when warm (`w ≥ 1/2`) and nothing when cold. -/
def twContrib (p : TimeOfWeekProfile) (day : ℤ) (frq : ℚ) (pr : ℤ × ℤ) : ℝ :=
  if 1/2 ≤ weightOf p day frq pr then (weightOf p day frq pr)^2 else 0

/-- The certified rational lower bound for `twContrib` of one offset pair:
nonzero only on the same-day row and on the chosen neighbouring-day row
`dayN`, and only for offsets certified warm by `certOK`. -/
def certBound (dayN : ℤ) (k : ℕ) (pr : ℤ × ℤ) : ℝ :=
  if pr.1 = 0 ∧ certOK 0 pr.2 k then
    (((lbNum (numA 0 pr.2 k) : ℚ) / (96 * (28800:ℚ)^4) : ℚ) : ℝ)^2
  else if pr.1 = dayN ∧ certOK 1 pr.2 k then
    (((lbNum (numA 1 pr.2 k) : ℚ) / (96 * (28800:ℚ)^4) : ℚ) : ℝ)^2
  else 0

/-- A concrete bin grid for claim C4: one heavy bin with count 100 and
mean 0 at Monday slot 0, and one bin with count 0.7 (below 1 but at least
0.5) and mean 10 at Monday slot 1. -/
def c4Bins : ℤ → ℤ → Bin := fun d t =>
  if d = 0 ∧ t = 0 then (0, 0, 100)
  else if d = 0 ∧ t = 1 then (7, 70, 7/10) else (0, 0, 0)

/-- The standard profile holding `c4Bins`. -/
def c4Profile : TimeOfWeekProfile := { standardProfile with bins := c4Bins }

/-! ## Theorems -/

/-- Banker's rounding moves a real by at most 1/2. -/
theorem abs_pyRoundInt_sub (y : ℝ) : |(pyRoundInt y : ℝ) - y| ≤ 1/2 := by
  have h0 : 0 ≤ Int.fract y := Int.fract_nonneg y
  have h1 : Int.fract y < 1 := Int.fract_lt_one y
  have hf : (⌊y⌋ : ℝ) + Int.fract y = y := Int.floor_add_fract y
  unfold pyRoundInt
  split_ifs with ha hb hc
  · rw [abs_le]; constructor <;> linarith
  · push_cast
    rw [abs_le]; constructor <;> linarith
  · rw [abs_le]; constructor <;> linarith
  · push_cast
    rw [abs_le]; constructor <;> linarith

/-- Rounding to two decimals moves a real by at most 1/200. -/
theorem abs_pyRound2_sub (x : ℝ) : |pyRound2 x - x| ≤ 1/200 := by
  have h := abs_pyRoundInt_sub (100 * x)
  have he : pyRound2 x - x = ((pyRoundInt (100 * x) : ℝ) - 100 * x) / 100 := by
    unfold pyRound2; ring
  rw [he, abs_div, abs_of_pos (show (0:ℝ) < 100 by norm_num)]
  linarith

/-- C3 (counterexample): `day_distance 0 6` is not 1 — day 0 (Monday) is a
weekday and day 6 (Sunday) a weekend day, so the weekday/weekend penalty
applies on top of the wraparound path: the value is 1.5. -/
theorem C3_day_distance_counterexample : day_distance 0 6 ≠ 1 := by
  norm_num [day_distance]

/-- C3 (amended): the day distance is symmetric across the week wrap and
uses the shorter wraparound path: `d(0,6) = d(6,0) = 1 + 0.5` (path 1 plus
the weekday/weekend penalty, not anything based on the long path 6); and
the Friday-Saturday distance exceeds the Monday-Tuesday distance by
exactly the penalty 0.5. -/
theorem C3_day_distance : day_distance 0 6 = day_distance 6 0 ∧
    day_distance 0 6 = 1 + 1/2 ∧ day_distance 4 5 = day_distance 0 1 + 1/2 := by
  refine ⟨?_, ?_, ?_⟩ <;> norm_num [day_distance]

/-- C8: constructing `HybridAnomalyDetector` as the code does raises
`AttributeError`, because `config.get_config_value` is not defined in
src/capture/config.py; construction does not succeed with the default
window 50 as the claim states. -/
theorem C8_construct_raises :
    HybridAnomalyDetector.construct =
      Except.error "AttributeError: module capture.config has no attribute get_config_value" := by
  have h : "get_config_value" ∉ configModuleAttrs := by decide
  unfold HybridAnomalyDetector.construct
  rw [if_neg h]

/-- C7 (counterexample): a NaN level is not `None`, so `add_value` appends
it and mutates the state — the claim that NaN levels leave all state
unchanged is false of the code. -/
theorem C7_nan_counterexample :
    RollingBaselinePy.add_value (mkRollingBaselinePy 50) (some PyFloat.nan) ≠
      mkRollingBaselinePy 50 := by
  intro h
  have hv := congrArg RollingBaselinePy.values h
  simp [RollingBaselinePy.add_value, mkRollingBaselinePy, pushMax] at hv

/-- C7 (amended): a `None` level is a strict no-op for `add_value`,
`add_sample` and `add_measurement`, and scoring a `None` level returns 0.0
(NaN levels are not filtered: see the counterexample). -/
theorem C7_null_levels_ignored :
    (∀ rb : RollingBaseline, rb.add_value none = rb) ∧
    (∀ (p : TimeOfWeekProfile) (t : ℕ), p.add_sample t none = p) ∧
    (∀ (d : HybridAnomalyDetector) (t : ℕ), d.add_measurement t none = d) ∧
    (∀ (d : HybridAnomalyDetector) (t : ℕ), (d.compute_anomaly_score t none).1 = 0) :=
  ⟨fun _ => rfl, fun _ _ => rfl, fun _ _ => rfl, fun _ _ => rfl⟩

/-- C2 (counterexample): at z-scores `z1 = z2 = 0.004` the fused, rounded
score is 0.0, strictly below `min z1 z2 = 0.004`, so the rounded score does
not lie in `[min, max]`. -/
theorem C2_rounding_counterexample :
    ¬ (min (1/250 : ℝ) (1/250) ≤ fuseScores (1/250) (1/250) ∧
       fuseScores (1/250) (1/250) ≤ max (1/250 : ℝ) (1/250)) := by
  have harg : (7/10 * max (1/250 : ℝ) (1/250) + 3/10 * min (1/250 : ℝ) (1/250)) = 1/250 := by
    rw [max_self, min_self]; ring
  have h100 : (100 : ℝ) * (1/250) = 2/5 := by norm_num
  have hfr : Int.fract ((100 : ℝ) * (1/250)) = 2/5 := by
    rw [h100]; exact Int.fract_eq_self.mpr ⟨by norm_num, by norm_num⟩
  have hfl : ⌊(100:ℝ) * (1/250)⌋ = 0 := by
    rw [h100, Int.floor_eq_zero_iff]
    constructor <;> norm_num
  have hfuse : fuseScores (1/250) (1/250) = pyRound2 (1/250) := by
    simp only [fuseScores]
    rw [harg]
  have hv2 : pyRound2 (1/250 : ℝ) = 0 := by
    unfold pyRound2 pyRoundInt
    rw [if_pos (by rw [hfr]; norm_num), hfl]
    norm_num
  have hv : fuseScores (1/250) (1/250) = 0 := hfuse.trans hv2
  rw [hv]
  intro hcl
  rw [min_self] at hcl
  have := hcl.1
  norm_num at this

/-- C2 (amended): for nonnegative z-scores the unrounded fused score
`0.7 * max + 0.3 * min` lies in `[min, max]`, and the returned rounded
score lies within 1/200 of that interval. -/
theorem C2_fusion_bound (z1 z2 : ℝ) (h1 : 0 ≤ z1) (h2 : 0 ≤ z2) :
    (min z1 z2 ≤ 7/10 * max z1 z2 + 3/10 * min z1 z2 ∧
     7/10 * max z1 z2 + 3/10 * min z1 z2 ≤ max z1 z2) ∧
    min z1 z2 - 1/200 ≤ fuseScores z1 z2 ∧ fuseScores z1 z2 ≤ max z1 z2 + 1/200 := by
  have hmm : min z1 z2 ≤ max z1 z2 := min_le_max
  have hr : |fuseScores z1 z2 - (7/10 * max z1 z2 + 3/10 * min z1 z2)| ≤ 1/200 :=
    abs_pyRound2_sub _
  rw [abs_le] at hr
  exact ⟨⟨by linarith, by linarith⟩, by linarith, by linarith⟩

/-- C2 witness at `z1 = 1`, `z2 = 2`. -/
theorem C2_fusion_bound_witness :
    (0:ℝ) ≤ 1 ∧ (0:ℝ) ≤ 2 ∧
      ((min (1:ℝ) 2 ≤ 7/10 * max (1:ℝ) 2 + 3/10 * min (1:ℝ) 2 ∧
        7/10 * max (1:ℝ) 2 + 3/10 * min (1:ℝ) 2 ≤ max (1:ℝ) 2) ∧
       min (1:ℝ) 2 - 1/200 ≤ fuseScores 1 2 ∧ fuseScores 1 2 ≤ max (1:ℝ) 2 + 1/200) :=
  ⟨by norm_num, by norm_num, C2_fusion_bound 1 2 (by norm_num) (by norm_num)⟩

/-- The values list after folding plain values into a rolling baseline:
the appended stream truncated to the last `window_size` entries. -/
theorem addMany_values (W : ℕ) (l : List ℝ) :
    ∀ rb : RollingBaseline, rb.window_size = W → rb.values.length ≤ W →
      (rb.addMany l).values = (rb.values ++ l).drop (rb.values.length + l.length - W) := by
  induction l with
  | nil =>
    intro rb hW hlen
    have h0 : rb.values.length - W = 0 := by omega
    simp [RollingBaseline.addMany, h0]
  | cons x xs ih =>
    intro rb hW hlen
    have hstep : rb.addMany (x :: xs) = (rb.add_value (some x)).addMany xs := rfl
    have hvals : (rb.add_value (some x)).values =
        (rb.values ++ [x]).drop (rb.values.length + 1 - W) := by
      simp [RollingBaseline.add_value, pushMax, hW]
    have hwin : (rb.add_value (some x)).window_size = W := hW
    have hlen1 : (rb.add_value (some x)).values.length ≤ W := by
      rw [hvals, List.length_drop]
      simp
      omega
    have hle : rb.values.length + 1 - W ≤ (rb.values ++ [x]).length := by
      simp
    have hsplit : ((rb.values ++ [x]) ++ xs).drop (rb.values.length + 1 - W) =
        (rb.values ++ [x]).drop (rb.values.length + 1 - W) ++ xs := by
      rw [List.drop_append_eq_append_drop, Nat.sub_eq_zero_of_le hle, List.drop_zero]
    rw [hstep, ih _ hwin hlen1, hvals, List.length_drop, ← hsplit, List.drop_drop]
    have hassoc : rb.values ++ [x] ++ xs = rb.values ++ x :: xs := by simp
    rw [hassoc]
    congr 1
    simp
    omega

/-- The window size is unchanged by `addMany`. -/
theorem addMany_window (l : List ℝ) :
    ∀ rb : RollingBaseline, (rb.addMany l).window_size = rb.window_size := by
  induction l with
  | nil => intro rb; rfl
  | cons x xs ih => intro rb; exact ih (rb.add_value (some x))

/-- After at least one `add_value`, the memoized stats are invalidated. -/
theorem addMany_cache (l : List ℝ) (hne : l ≠ []) :
    ∀ rb : RollingBaseline, (rb.addMany l).cachedStats = none := by
  induction l with
  | nil => exact absurd rfl hne
  | cons x xs ih =>
    intro rb
    match xs, ih with
    | [], _ => rfl
    | y :: ys, ih => exact ih (by simp) (rb.add_value (some x))

/-- The recomputed statistics are the list mean and the Bessel-corrected
sample standard deviation. -/
theorem statsOf_eq (l : List ℝ) (h : 1 < l.length) :
    statsOf l = (listMean l, Real.sqrt (besselVar l)) := by
  simp only [statsOf, listMean, besselVar]
  rw [if_pos h]

/-- C6: the rolling window never exceeds its capacity `W`, and after adding
`W + k` values (`k ≥ 1`, `W ≥ 5` so that stats are defined) exactly the
last `W` values remain and determine `get_stats`, which returns their mean
and Bessel-corrected sample standard deviation. -/
theorem C6_fifo_window (W k : ℕ) (vs : List ℝ) (hW : 5 ≤ W) (hk : 1 ≤ k)
    (hlen : vs.length = W + k) :
    (∀ l : List ℝ, ((mkRollingBaseline W).addMany l).values.length ≤ W) ∧
    ((mkRollingBaseline W).addMany vs).values = vs.drop k ∧
    (((mkRollingBaseline W).addMany vs).get_stats).1 =
      some (listMean (vs.drop k), Real.sqrt (besselVar (vs.drop k))) := by
  have hbase : ∀ l : List ℝ, ((mkRollingBaseline W).addMany l).values =
      l.drop (l.length - W) := by
    intro l
    have := addMany_values W l (mkRollingBaseline W) rfl (by simp [mkRollingBaseline])
    simpa [mkRollingBaseline] using this
  have hvals : ((mkRollingBaseline W).addMany vs).values = vs.drop k := by
    rw [hbase, hlen]
    congr 1
    omega
  refine ⟨?_, hvals, ?_⟩
  · intro l
    rw [hbase, List.length_drop]
    omega
  · have hlend : (vs.drop k).length = W := by
      rw [List.length_drop, hlen]; omega
    have hcache : ((mkRollingBaseline W).addMany vs).cachedStats = none := by
      apply addMany_cache
      intro hnil
      rw [hnil] at hlen
      simp at hlen
      omega
    unfold RollingBaseline.get_stats
    rw [hvals, hcache, hlend]
    rw [if_neg (by omega)]
    rw [statsOf_eq _ (by omega)]

/-- C6 witness: capacity 5, six values added, the last five remain. -/
theorem C6_fifo_window_witness :
    5 ≤ 5 ∧ 1 ≤ 1 ∧ ([1, 2, 3, 4, 5, 6] : List ℝ).length = 5 + 1 ∧
      ((∀ l : List ℝ, ((mkRollingBaseline 5).addMany l).values.length ≤ 5) ∧
       ((mkRollingBaseline 5).addMany [1, 2, 3, 4, 5, 6]).values =
         ([1, 2, 3, 4, 5, 6] : List ℝ).drop 1 ∧
       (((mkRollingBaseline 5).addMany [1, 2, 3, 4, 5, 6]).get_stats).1 =
         some (listMean (([1, 2, 3, 4, 5, 6] : List ℝ).drop 1),
           Real.sqrt (besselVar (([1, 2, 3, 4, 5, 6] : List ℝ).drop 1)))) :=
  ⟨by norm_num, by norm_num, by simp,
    C6_fifo_window 5 1 [1, 2, 3, 4, 5, 6] (by norm_num) (by norm_num) (by simp)⟩

/-- One `get_expected` iteration adds the per-pair contribution to the
accumulator. -/
theorem queryStep_eq_contrib (p : TimeOfWeekProfile) (b : ℤ → ℤ → Bin) (day time_bin : ℤ)
    (time_frac : ℚ) (acc : ℝ × ℝ × ℝ) (pr : ℤ × ℤ) :
    queryStep p b day time_bin time_frac acc pr =
      (acc.1 + (queryContrib p b day time_bin time_frac pr).1,
       acc.2.1 + (queryContrib p b day time_bin time_frac pr).2.1,
       acc.2.2 + (queryContrib p b day time_bin time_frac pr).2.2) := by
  simp only [queryStep, queryContrib]
  split_ifs with h
  · simp
  · rfl

/-- The `get_expected` fold is the componentwise sum of the per-pair
contributions. -/
theorem foldl_queryStep (p : TimeOfWeekProfile) (b : ℤ → ℤ → Bin) (day time_bin : ℤ)
    (time_frac : ℚ) :
    ∀ (L : List (ℤ × ℤ)) (acc : ℝ × ℝ × ℝ),
      L.foldl (queryStep p b day time_bin time_frac) acc =
        (acc.1 + (L.map fun pr => (queryContrib p b day time_bin time_frac pr).1).sum,
         acc.2.1 + (L.map fun pr => (queryContrib p b day time_bin time_frac pr).2.1).sum,
         acc.2.2 + (L.map fun pr => (queryContrib p b day time_bin time_frac pr).2.2).sum) := by
  intro L
  induction L with
  | nil => intro acc; simp
  | cons q L ih =>
    intro acc
    rw [List.foldl_cons, ih, queryStep_eq_contrib]
    simp only [List.map_cons, List.sum_cons, Prod.mk.injEq]
    refine ⟨by ring, by ring, by ring⟩

/-- `get_expected` in terms of the contribution totals. -/
theorem get_expected_eq (p : TimeOfWeekProfile) (t : ℕ) :
    p.get_expected t =
      expectedFromTotals (queryTotals p p.bins (p.timestamp_to_coords t).1
        (p.timestamp_to_coords t).2.1 (p.timestamp_to_coords t).2.2) := by
  simp only [TimeOfWeekProfile.get_expected, queryTotals, expectedFromTotals]
  rw [foldl_queryStep]
  simp

/-- A profile whose bins are all empty answers no query. -/
theorem get_expected_of_zero_bins (time_bins : ℕ) (ts ds : ℝ) (t : ℕ) :
    (mkProfile time_bins ts ds).get_expected t = none := by
  rw [get_expected_eq]
  have hc : ∀ pr : ℤ × ℤ,
      queryContrib (mkProfile time_bins ts ds) (mkProfile time_bins ts ds).bins
        ((mkProfile time_bins ts ds).timestamp_to_coords t).1
        ((mkProfile time_bins ts ds).timestamp_to_coords t).2.1
        ((mkProfile time_bins ts ds).timestamp_to_coords t).2.2 pr = (0, 0, 0) := by
    intro pr
    simp [queryContrib, mkProfile]
  simp [queryTotals, hc, expectedFromTotals]

/-- C1: a freshly constructed detector scores every measurement 0.0, and
more generally `compute_anomaly_score` returns exactly 0.0 whenever the
rolling baseline and the time-of-week profile both report `none`. -/
theorem C1_neutral_score :
    (∀ (t : ℕ) (v : Option ℝ), (freshDetector.compute_anomaly_score t v).1 = 0) ∧
    (∀ (d : HybridAnomalyDetector) (t : ℕ) (v : Option ℝ),
      (d.rolling.get_stats).1 = none → d.time_profile.get_expected t = none →
      (d.compute_anomaly_score t v).1 = 0) := by
  have hgen : ∀ (d : HybridAnomalyDetector) (t : ℕ) (v : Option ℝ),
      (d.rolling.get_stats).1 = none → d.time_profile.get_expected t = none →
      (d.compute_anomaly_score t v).1 = 0 := by
    intro d t v h1 h2
    cases v with
    | none => rfl
    | some x => simp [HybridAnomalyDetector.compute_anomaly_score, h1, h2]
  refine ⟨?_, hgen⟩
  intro t v
  apply hgen
  · simp [freshDetector, mkDetector, mkRollingBaseline, RollingBaseline.get_stats]
  · exact get_expected_of_zero_bins 48 2 1 t

/-- C1 witness at a concrete fresh detector, timestamp and level. -/
theorem C1_neutral_score_witness :
    ((mkDetector 7).rolling.get_stats).1 = none ∧
    (mkDetector 7).time_profile.get_expected 123 = none ∧
    ((mkDetector 7).compute_anomaly_score 123 (some 42)).1 = 0 := by
  have h1 : ((mkDetector 7).rolling.get_stats).1 = none := by
    simp [mkDetector, mkRollingBaseline, RollingBaseline.get_stats]
  have h2 : (mkDetector 7).time_profile.get_expected 123 = none :=
    get_expected_of_zero_bins 48 2 1 123
  exact ⟨h1, h2, C1_neutral_score.2 (mkDetector 7) 123 (some 42) h1 h2⟩

/-- `get_stats` leaves the window contents untouched; its only state change
is filling the stats cache with the recomputed statistics, and a repeated
query returns the same answer. -/
theorem get_stats_state (rb : RollingBaseline) :
    (rb.get_stats).2.window_size = rb.window_size ∧
    (rb.get_stats).2.values = rb.values ∧
    ((rb.get_stats).2.cachedStats = rb.cachedStats ∨
      (rb.get_stats).2.cachedStats = some (statsOf rb.values)) ∧
    ((rb.get_stats).2.get_stats).1 = (rb.get_stats).1 := by
  by_cases h5 : rb.values.length < 5
  · have he : rb.get_stats = (none, rb) := by simp [RollingBaseline.get_stats, h5]
    rw [he]
    exact ⟨rfl, rfl, Or.inl rfl, by rw [he]⟩
  · rcases hc : rb.cachedStats with _ | st
    · have he : rb.get_stats = (some (statsOf rb.values),
          { rb with cachedStats := some (statsOf rb.values) }) := by
        simp [RollingBaseline.get_stats, h5, hc]
      rw [he]
      refine ⟨rfl, rfl, Or.inr rfl, ?_⟩
      simp [RollingBaseline.get_stats, h5]
    · have he : rb.get_stats = (some st, rb) := by
        simp [RollingBaseline.get_stats, h5, hc]
      rw [he]
      exact ⟨rfl, rfl, Or.inl hc, by rw [he]⟩

/-- C9: scoring is observationally read-only — it never changes the
seasonal bins or the rolling window contents; the only possible write is
filling the memoized stats cache with exactly the recomputation
`statsOf values`, and both baselines answer every later query exactly as
before the scoring call. -/
theorem C9_score_read_only (d : HybridAnomalyDetector) (t : ℕ) (v : Option ℝ) :
    ((d.compute_anomaly_score t v).2).time_profile = d.time_profile ∧
    ((d.compute_anomaly_score t v).2).rolling.window_size = d.rolling.window_size ∧
    ((d.compute_anomaly_score t v).2).rolling.values = d.rolling.values ∧
    (((d.compute_anomaly_score t v).2).rolling.cachedStats = d.rolling.cachedStats ∨
      ((d.compute_anomaly_score t v).2).rolling.cachedStats = some (statsOf d.rolling.values)) ∧
    (((d.compute_anomaly_score t v).2).rolling.get_stats).1 = (d.rolling.get_stats).1 ∧
    (∀ t2 : ℕ, ((d.compute_anomaly_score t v).2).time_profile.get_expected t2 =
      d.time_profile.get_expected t2) := by
  cases v with
  | none => exact ⟨rfl, rfl, rfl, Or.inl rfl, rfl, fun _ => rfl⟩
  | some x =>
    have h2 : (d.compute_anomaly_score t (some x)).2 =
        { d with rolling := (d.rolling.get_stats).2 } := rfl
    rw [h2]
    obtain ⟨hw, hv, hc, hq⟩ := get_stats_state d.rolling
    exact ⟨rfl, hw, hv, hc, hq, fun _ => rfl⟩

/-- The instrumented statistics recomputation flags no zero denominator on
windows of at least 5 values. -/
theorem statsOfChk_eq (l : List ℝ) (h : 5 ≤ l.length) : statsOfChk l = (statsOf l, true) := by
  have hcast : (5:ℝ) ≤ (l.length : ℝ) := by exact_mod_cast h
  have h0 : ((l.length : ℝ)) ≠ 0 := by linarith
  have h1 : ((l.length : ℝ)) - 1 ≠ 0 := by linarith
  simp [statsOfChk, statsOf, h0, h1, show 1 < l.length by omega]

/-- The instrumented `get_stats` flags no zero denominator. -/
theorem get_statsChk_eq (rb : RollingBaseline) : rb.get_statsChk = (rb.get_stats, true) := by
  by_cases h5 : rb.values.length < 5
  · simp [RollingBaseline.get_statsChk, RollingBaseline.get_stats, h5]
  · rcases hc : rb.cachedStats with _ | st
    · simp [RollingBaseline.get_statsChk, RollingBaseline.get_stats, h5, hc,
        statsOfChk_eq rb.values (by omega)]
    · simp [RollingBaseline.get_statsChk, RollingBaseline.get_stats, h5, hc]

/-- The instrumented `get_expected` fold never divides by a zero bin count:
the cold-bin guard `count < 0.5` protects every division. -/
theorem foldl_queryStepChk (p : TimeOfWeekProfile) (b : ℤ → ℤ → Bin) (day time_bin : ℤ)
    (time_frac : ℚ) :
    ∀ (L : List (ℤ × ℤ)) (acc : ℝ × ℝ × ℝ),
      L.foldl (queryStepChk p b day time_bin time_frac) (acc, true) =
        (L.foldl (queryStep p b day time_bin time_frac) acc, true) := by
  intro L
  induction L with
  | nil => intro acc; rfl
  | cons q L ih =>
    intro acc
    rw [List.foldl_cons, List.foldl_cons]
    have hstep : queryStepChk p b day time_bin time_frac (acc, true) q =
        (queryStep p b day time_bin time_frac acc q, true) := by
      simp only [queryStepChk, queryStep]
      split_ifs with h h0
      · rfl
      · exfalso
        push_neg at h
        rw [h0] at h
        norm_num at h
      · rfl
    rw [hstep, ih]

/-- The instrumented `get_expected` flags no zero denominator. -/
theorem get_expectedChk_eq (p : TimeOfWeekProfile) (t : ℕ) :
    p.get_expectedChk t = (p.get_expected t, true) := by
  simp only [TimeOfWeekProfile.get_expectedChk, TimeOfWeekProfile.get_expected,
    foldl_queryStepChk]
  by_cases h3 : (List.foldl (queryStep p p.bins (p.timestamp_to_coords t).1
      (p.timestamp_to_coords t).2.1 (p.timestamp_to_coords t).2.2) (0, 0, 0) offsetPairs).2.2 < 3
  · rw [if_pos h3, if_pos h3]
  · have h0 : ¬ (List.foldl (queryStep p p.bins (p.timestamp_to_coords t).1
        (p.timestamp_to_coords t).2.1 (p.timestamp_to_coords t).2.2) (0, 0, 0)
          offsetPairs).2.2 = 0 := by
      intro hz
      rw [hz] at h3
      exact h3 (by norm_num)
    rw [if_neg h3, if_neg h3, if_neg h0]

/-- The instrumented score computation flags no zero denominator: the
z-score denominators `max std 1` are at least 1. -/
theorem compute_chk_eq (d : HybridAnomalyDetector) (t : ℕ) (v : Option ℝ) :
    d.compute_anomaly_scoreChk t v = (d.compute_anomaly_score t v, true) := by
  cases v with
  | none => rfl
  | some x =>
    have hmax : ∀ s : ℝ, max s 1 ≠ 0 := by
      intro s h
      have h1 : (1:ℝ) ≤ max s 1 := le_max_right s 1
      rw [h] at h1
      norm_num at h1
    rcases h1 : (d.rolling.get_stats).1 with _ | ms <;>
      rcases h2 : d.time_profile.get_expected t with _ | mt <;>
        simp [HybridAnomalyDetector.compute_anomaly_scoreChk,
          HybridAnomalyDetector.compute_anomaly_score, h1, h2, hmax]

/-- C10: no division in the scoring path divides by zero — the z-score
denominators are `max std 1 ≥ 1`, `get_stats` divides only by `n ≥ 5` and
`n - 1 ≥ 4`, and `get_expected` divides only by bin counts past the
`count ≥ 0.5` guard and a total weight past the `≥ 3` guard.  The
instrumented variants, which return `false` if any division site sees a
zero denominator, always return `true` and compute the same results. -/
theorem C10_no_division_by_zero :
    (∀ rb : RollingBaseline, rb.get_statsChk = (rb.get_stats, true)) ∧
    (∀ (p : TimeOfWeekProfile) (t : ℕ), p.get_expectedChk t = (p.get_expected t, true)) ∧
    (∀ (d : HybridAnomalyDetector) (t : ℕ) (v : Option ℝ),
      d.compute_anomaly_scoreChk t v = (d.compute_anomaly_score t v, true)) :=
  ⟨get_statsChk_eq, get_expectedChk_eq, compute_chk_eq⟩

/-- C4 (amended): a bin whose weighted count is below the code's cold
threshold 0.5 contributes nothing to `get_expected` — zeroing any such bin
leaves every query answer unchanged.  (Bins with count in `[0.5, 1)` do
contribute; see the counterexample.) -/
theorem C4_cold_bins_contribute_nothing (p : TimeOfWeekProfile) (t : ℕ) (D T : ℤ)
    (h : (p.bins D T).2.2 < 1/2) :
    (p.zeroBin D T).get_expected t = p.get_expected t := by
  rw [get_expected_eq, get_expected_eq]
  have hco : (p.zeroBin D T).timestamp_to_coords t = p.timestamp_to_coords t := rfl
  rw [hco]
  have hpr : ∀ pr : ℤ × ℤ,
      queryContrib (p.zeroBin D T) (p.zeroBin D T).bins (p.timestamp_to_coords t).1
        (p.timestamp_to_coords t).2.1 (p.timestamp_to_coords t).2.2 pr =
      queryContrib p p.bins (p.timestamp_to_coords t).1
        (p.timestamp_to_coords t).2.1 (p.timestamp_to_coords t).2.2 pr := by
    intro pr
    by_cases hk : (((p.timestamp_to_coords t).1 + pr.1) % 7 = D ∧
        ((p.timestamp_to_coords t).2.1 + pr.2) % (p.time_bins : ℤ) = T)
    · simp only [queryContrib, TimeOfWeekProfile.zeroBin, hk.1, hk.2]
      norm_num [h]
    · simp only [queryContrib, TimeOfWeekProfile.zeroBin]
      rw [if_neg hk]
      rfl
  have htot : queryTotals (p.zeroBin D T) (p.zeroBin D T).bins (p.timestamp_to_coords t).1
      (p.timestamp_to_coords t).2.1 (p.timestamp_to_coords t).2.2 =
      queryTotals p p.bins (p.timestamp_to_coords t).1
        (p.timestamp_to_coords t).2.1 (p.timestamp_to_coords t).2.2 := by
    unfold queryTotals
    simp only [Prod.mk.injEq]
    refine ⟨?_, ?_, ?_⟩
    · exact congrArg List.sum (List.map_congr_left fun pr _ => by rw [hpr pr])
    · exact congrArg List.sum (List.map_congr_left fun pr _ => by rw [hpr pr])
    · exact congrArg List.sum (List.map_congr_left fun pr _ => by rw [hpr pr])
  rw [htot]

/-- The Gaussian kernel weight is strictly positive. -/
theorem gaussian_weight_pos (p : TimeOfWeekProfile) (td dd : ℝ) :
    0 < p.gaussian_weight td dd :=
  mul_pos (Real.exp_pos _) (Real.exp_pos _)

/-- Every per-pair contribution to the total query weight is nonnegative. -/
theorem queryContrib_tw_nonneg (p : TimeOfWeekProfile) (b : ℤ → ℤ → Bin) (day time_bin : ℤ)
    (time_frac : ℚ) (pr : ℤ × ℤ) :
    0 ≤ (queryContrib p b day time_bin time_frac pr).2.2 := by
  simp only [queryContrib]
  split_ifs with h
  · norm_num
  · push_neg at h
    dsimp only
    have hg := gaussian_weight_pos p (|(pr.2 : ℝ) - ((time_frac : ℚ) : ℝ) + 1/2|)
      ((day_distance day ((day + pr.1) % 7) : ℚ) : ℝ)
    nlinarith

/-- The offset pairs written out. -/
theorem offsetPairs_eq_list : offsetPairs =
    [(-2, -3), (-2, -2), (-2, -1), (-2, 0), (-2, 1), (-2, 2), (-2, 3),
     (-1, -3), (-1, -2), (-1, -1), (-1, 0), (-1, 1), (-1, 2), (-1, 3),
     (0, -3), (0, -2), (0, -1), (0, 0), (0, 1), (0, 2), (0, 3),
     (1, -3), (1, -2), (1, -1), (1, 0), (1, 1), (1, 2), (1, 3),
     (2, -3), (2, -2), (2, -1), (2, 0), (2, 1), (2, 2), (2, 3)] := rfl

/-- The loop offsets are bounded by the loop ranges. -/
theorem offsetPairs_bounds :
    ∀ pr ∈ offsetPairs, -2 ≤ pr.1 ∧ pr.1 ≤ 2 ∧ -3 ≤ pr.2 ∧ pr.2 ≤ 3 := by decide

/-- C4 (counterexample): in the code the cold threshold is 0.5, not 1 — a
bin with weighted count 0.7 (below 1) does contribute: with a count-100
mean-0 bin at Monday slot 0 and a count-0.7 mean-10 bin at Monday slot 1,
zeroing the 0.7 bin changes the answer of `get_expected` at Monday 00:00
(timestamp 345600). -/
theorem C4_sub_one_bin_counterexample :
    (c4Profile.bins 0 1).2.2 < 1 ∧
      c4Profile.get_expected 345600 ≠ (c4Profile.zeroBin 0 1).get_expected 345600 := by
  constructor
  · norm_num [c4Profile, c4Bins]
  · have hco : c4Profile.timestamp_to_coords 345600 = ((0:ℤ), (0:ℤ), (0:ℚ)) := by
      norm_num [TimeOfWeekProfile.timestamp_to_coords, c4Profile, standardProfile, mkProfile]
    have hco2 : (c4Profile.zeroBin 0 1).timestamp_to_coords 345600 = ((0:ℤ), (0:ℤ), (0:ℚ)) :=
      hco
    rw [get_expected_eq, get_expected_eq, hco, hco2]
    dsimp only
    have hb00 : c4Profile.bins 0 0 = ((0:ℝ), (0:ℝ), (100:ℝ)) := by norm_num [c4Profile, c4Bins]
    -- the first accumulator of the un-zeroed profile equals the single
    -- contribution of the 0.7 bin
    have hpt : ∀ pr ∈ offsetPairs, (queryContrib c4Profile c4Profile.bins 0 0 0 pr).1 =
        if pr = ((0:ℤ), (1:ℤ)) then (queryContrib c4Profile c4Profile.bins 0 0 0 (0, 1)).1
        else 0 := by
      intro pr hmem
      by_cases he : pr = ((0:ℤ), (1:ℤ))
      · rw [he, if_pos rfl]
      · rw [if_neg he]
        obtain ⟨hb1, hb2, hb3, hb4⟩ := offsetPairs_bounds pr hmem
        simp only [queryContrib, c4Profile, c4Bins, standardProfile, mkProfile]
        by_cases hA : ((0:ℤ) + pr.1) % 7 = 0 ∧ ((0:ℤ) + pr.2) % ((48:ℕ):ℤ) = 0
        · rw [if_pos hA]
          norm_num
        · rw [if_neg hA]
          by_cases hB : ((0:ℤ) + pr.1) % 7 = 0 ∧ ((0:ℤ) + pr.2) % ((48:ℕ):ℤ) = 1
          · exfalso
            apply he
            have h1 := hB.1
            have h2 := hB.2
            have : pr.1 = 0 ∧ pr.2 = 1 := by
              constructor <;> omega
            exact Prod.ext this.1 this.2
          · rw [if_neg hB]
            norm_num
    have hws : (queryTotals c4Profile c4Profile.bins 0 0 0).1 =
        (queryContrib c4Profile c4Profile.bins 0 0 0 (0, 1)).1 := by
      show (offsetPairs.map fun pr => (queryContrib c4Profile c4Profile.bins 0 0 0 pr).1).sum = _
      rw [List.map_congr_left hpt, offsetPairs_eq_list]
      norm_num [Prod.ext_iff, Prod.fst_zero, Prod.snd_zero, Prod.fst_one, Prod.snd_one]
    -- the zeroed profile accumulates no weighted sum at all
    have hws0 : ∀ pr : ℤ × ℤ,
        (queryContrib (c4Profile.zeroBin 0 1) (c4Profile.zeroBin 0 1).bins 0 0 0 pr).1 = 0 := by
      intro pr
      simp only [queryContrib, TimeOfWeekProfile.zeroBin, c4Profile, c4Bins, standardProfile,
        mkProfile]
      split_ifs <;> norm_num
    have hws' : (queryTotals (c4Profile.zeroBin 0 1) (c4Profile.zeroBin 0 1).bins 0 0 0).1 = 0 := by
      show (offsetPairs.map fun pr =>
        (queryContrib (c4Profile.zeroBin 0 1) (c4Profile.zeroBin 0 1).bins 0 0 0 pr).1).sum = 0
      rw [List.map_congr_left (fun pr _ => hws0 pr), offsetPairs_eq_list]
      simp
    -- both total weights are at least 3, thanks to the count-100 bin
    have hexp32 : (31:ℝ)/32 ≤ Real.exp (-(1 / 2 * (|(1:ℝ) / 2| / 2) ^ 2)) := by
      have habs : |(1:ℝ)/2| = 1/2 := abs_of_pos (by norm_num)
      rw [habs, show -((1:ℝ) / 2 * ((1 / 2) / 2) ^ 2) = -(1/32) by norm_num]
      linarith [Real.add_one_le_exp (-(1/32) : ℝ)]
    have hterm : (3:ℝ) ≤ (queryContrib c4Profile c4Profile.bins 0 0 0 ((0:ℤ), (0:ℤ))).2.2 := by
      simp only [queryContrib, c4Profile, c4Bins, standardProfile, mkProfile,
        TimeOfWeekProfile.gaussian_weight, day_distance]
      norm_num
      linarith [hexp32]
    have hterm2 : (3:ℝ) ≤ (queryContrib (c4Profile.zeroBin 0 1) (c4Profile.zeroBin 0 1).bins
        0 0 0 ((0:ℤ), (0:ℤ))).2.2 := by
      simp only [queryContrib, TimeOfWeekProfile.zeroBin, c4Profile, c4Bins, standardProfile,
        mkProfile, TimeOfWeekProfile.gaussian_weight, day_distance]
      norm_num
      linarith [hexp32]
    have htw : (3:ℝ) ≤ (queryTotals c4Profile c4Profile.bins 0 0 0).2.2 := by
      refine le_trans hterm ?_
      apply List.single_le_sum
      · intro x hx
        obtain ⟨pr, _, hpr⟩ := List.mem_map.mp hx
        rw [← hpr]
        exact queryContrib_tw_nonneg _ _ _ _ _ _
      · exact List.mem_map_of_mem _ (by decide)
    have htw' : (3:ℝ) ≤
        (queryTotals (c4Profile.zeroBin 0 1) (c4Profile.zeroBin 0 1).bins 0 0 0).2.2 := by
      refine le_trans hterm2 ?_
      apply List.single_le_sum
      · intro x hx
        obtain ⟨pr, _, hpr⟩ := List.mem_map.mp hx
        rw [← hpr]
        exact queryContrib_tw_nonneg _ _ _ _ _ _
      · exact List.mem_map_of_mem _ (by decide)
    -- the 0.7 bin contributes a strictly positive weighted sum
    have hpos : 0 < (queryContrib c4Profile c4Profile.bins 0 0 0 ((0:ℤ), (1:ℤ))).1 := by
      simp only [queryContrib, c4Profile, c4Bins, standardProfile, mkProfile,
        TimeOfWeekProfile.gaussian_weight, day_distance]
      norm_num
      positivity
    intro heq
    simp only [expectedFromTotals] at heq
    have hlt : ¬ ((queryTotals c4Profile c4Profile.bins 0 0 0).2.2 < 3) := not_lt.mpr htw
    have hlt2 : ¬ ((queryTotals (c4Profile.zeroBin 0 1) (c4Profile.zeroBin 0 1).bins
        0 0 0).2.2 < 3) := not_lt.mpr htw'
    rw [if_neg hlt, if_neg hlt2] at heq
    rw [Option.some.injEq, Prod.mk.injEq] at heq
    have hm := heq.1
    rw [hws, hws'] at hm
    rw [zero_div] at hm
    rcases div_eq_zero_iff.mp hm with hz | hz
    · linarith
    · linarith

/-- C4 witness: zeroing an empty (count-0) bin of the standard profile
changes nothing. -/
theorem C4_cold_bins_witness :
    (standardProfile.bins 0 0).2.2 < 1/2 ∧
      (standardProfile.zeroBin 0 0).get_expected 0 = standardProfile.get_expected 0 :=
  ⟨by norm_num [standardProfile, mkProfile],
    C4_cold_bins_contribute_nothing standardProfile 0 0 0
      (by norm_num [standardProfile, mkProfile])⟩

/-- Degree-4 Taylor lower bound for `exp (-x)` on `[0, 1]`, from
`Real.exp_bound`. -/
theorem lb_le_exp_neg {x : ℝ} (h0 : 0 ≤ x) (h1 : x ≤ 1) :
    1 - x + x^2/2 - x^3/6 - x^4 * (5/96) ≤ Real.exp (-x) := by
  have habs : |(-x)| ≤ 1 := by rw [abs_neg, abs_of_nonneg h0]; exact h1
  have hb := Real.exp_bound habs (by norm_num : 0 < 4)
  have hsum : (∑ m ∈ Finset.range 4, (-x) ^ m / (m.factorial : ℝ)) =
      1 - x + x^2/2 - x^3/6 := by
    rw [Finset.sum_range_succ, Finset.sum_range_succ, Finset.sum_range_succ,
      Finset.sum_range_one]
    norm_num [Nat.factorial]
    ring
  rw [hsum, abs_neg, abs_of_nonneg h0] at hb
  have hb2 := (abs_le.mp hb).1
  norm_num [Nat.factorial] at hb2
  nlinarith [hb2]

/-- Cast form of the lower-bound polynomial compared with `exp (-q)`. -/
theorem lbPoly_le_exp (q : ℚ) (h0 : 0 ≤ q) (h1 : q ≤ 1) :
    ((lbPoly q : ℚ) : ℝ) ≤ Real.exp (-(q : ℝ)) := by
  have hcast : ((lbPoly q : ℚ) : ℝ) =
      1 - (q:ℝ) + (q:ℝ)^2/2 - (q:ℝ)^3/6 - (q:ℝ)^4 * (5/96) := by
    simp only [lbPoly]
    push_cast
    ring
  rw [hcast]
  exact lb_le_exp_neg (by exact_mod_cast h0) (by exact_mod_cast h1)

/-- The Gaussian exponent as the scaled integer `numA`. -/
theorem qExp_eq (dd2 : ℤ) (ddQ : ℚ) (h : ddQ^2 = (dd2 : ℚ)) (tOff : ℤ) (k : ℕ) :
    qExp ddQ tOff k = (numA dd2 tOff k : ℚ) / 28800 := by
  simp only [qExp, timeDistQ, numA]
  rw [sq_abs]
  push_cast
  rw [← h]
  ring

/-- The lower-bound polynomial at `a / 28800` as the scaled integer
`lbNum a`. -/
theorem lbPoly_div (a : ℤ) :
    lbPoly ((a : ℚ) / 28800) = (lbNum a : ℚ) / (96 * (28800:ℚ)^4) := by
  simp only [lbPoly, lbNum, scaleD]
  push_cast
  field_simp
  ring

/-- Unpacking the decidable warm-offset certificate. -/
theorem certOK_spec {dd2 tOff : ℤ} {k : ℕ} (h : certOK dd2 tOff k = true) :
    numA dd2 tOff k ≤ scaleD ∧ 96 * scaleD^4 ≤ 2 * lbNum (numA dd2 tOff k) := by
  simpa [certOK] using h

/-- The scaled exponent is nonnegative for nonnegative day distance
square. -/
theorem numA_nonneg {dd2 : ℤ} (h : 0 ≤ dd2) (tOff : ℤ) (k : ℕ) : 0 ≤ numA dd2 tOff k := by
  simp only [numA]
  nlinarith [sq_nonneg (60 * tOff - 2 * (k:ℤ) + 30)]

/-- The decidable integer certificate: for every fractional position
`k/30`, the certified same-day plus neighbouring-day weight squares sum to
at least 3 (after clearing the common denominator). -/
theorem certified_ge_three_z :
    ∀ k : Fin 30, 3 * (96 * scaleD^4)^2 ≤ certSumZ 0 (k : ℕ) + certSumZ 1 (k : ℕ) := by
  decide

/-- One certified term, cast to the common denominator. -/
theorem certTerm_cast (dd2 tOff : ℤ) (k : ℕ) :
    (if certOK dd2 tOff k then ((lbNum (numA dd2 tOff k) : ℚ) / (96 * (28800:ℚ)^4))^2 else 0)
      = ((certTermZ dd2 tOff k : ℤ) : ℚ) / ((96 * (28800:ℚ)^4)^2) := by
  by_cases h : certOK dd2 tOff k
  · rw [if_pos h]
    simp only [certTermZ, if_pos h]
    rw [div_pow]
    push_cast
    ring
  · rw [if_neg h]
    simp only [certTermZ, if_neg h]
    norm_num

/-- The certified row as a single scaled integer. -/
theorem certifiedRow_eq (dd2 : ℤ) (k : ℕ) :
    certifiedRow dd2 k = ((certSumZ dd2 k : ℤ) : ℚ) / ((96 * (28800:ℚ)^4)^2) := by
  simp only [certifiedRow, certSumZ, timeOffsets, List.map_cons, List.map_nil,
    List.sum_cons, List.sum_nil]
  rw [certTerm_cast, certTerm_cast, certTerm_cast, certTerm_cast, certTerm_cast,
    certTerm_cast, certTerm_cast]
  push_cast
  ring

/-- The certified rows sum to at least 3, in ℚ. -/
theorem certified_rows_ge_three {k : ℕ} (hk : k < 30) :
    3 ≤ certifiedRow 0 k + certifiedRow 1 k := by
  rw [certifiedRow_eq, certifiedRow_eq, div_add_div_same, le_div_iff (by positivity)]
  have hz := certified_ge_three_z ⟨k, hk⟩
  have hc : ((3 * (96 * scaleD^4)^2 : ℤ) : ℚ) ≤ ((certSumZ 0 k + certSumZ 1 k : ℤ) : ℚ) := by
    exact_mod_cast hz
  simp only [scaleD] at hc
  push_cast at hc ⊢
  linarith

/-- The certified row, cast to ℝ, as a sum over the time offsets. -/
theorem certifiedRow_cast (dd2 : ℤ) (k : ℕ) :
    ((certifiedRow dd2 k : ℚ) : ℝ) =
      (timeOffsets.map fun tOff => if certOK dd2 tOff k then
        (((lbNum (numA dd2 tOff k) : ℚ) / (96 * (28800:ℚ)^4) : ℚ) : ℝ)^2 else 0).sum := by
  simp only [certifiedRow, timeOffsets, List.map_cons, List.map_nil, List.sum_cons,
    List.sum_nil]
  push_cast
  rw [apply_ite ((fun q => (q : ℝ)) : ℚ → ℝ), apply_ite ((fun q => (q : ℝ)) : ℚ → ℝ),
    apply_ite ((fun q => (q : ℝ)) : ℚ → ℝ), apply_ite ((fun q => (q : ℝ)) : ℚ → ℝ),
    apply_ite ((fun q => (q : ℝ)) : ℚ → ℝ), apply_ite ((fun q => (q : ℝ)) : ℚ → ℝ),
    apply_ite ((fun q => (q : ℝ)) : ℚ → ℝ)]
  push_cast
  ring

/-- A day is at distance 0 from itself. -/
theorem day_distance_self (d : ℤ) : day_distance d d = 0 := by
  simp [day_distance]

/-- The chosen neighbour is one day away (in either direction). -/
theorem neighborDay_cases (d : ℤ) : neighborDay d = 1 ∨ neighborDay d = -1 := by
  unfold neighborDay
  split_ifs <;> simp

/-- Every day of the week has its chosen neighbour at day distance exactly
1 (same weekday/weekend class, adjacent day). -/
theorem day_distance_neighbor (d : ℤ) (h0 : 0 ≤ d) (h7 : d < 7) :
    day_distance d ((d + neighborDay d) % 7) = 1 := by
  interval_cases d <;> norm_num [neighborDay, day_distance]

/-- The standard profile's Gaussian weight as a single exponential. -/
theorem standard_gauss (td dd : ℝ) :
    standardProfile.gaussian_weight td dd = Real.exp (-(td^2/8 + dd^2/2)) := by
  simp only [TimeOfWeekProfile.gaussian_weight, standardProfile, mkProfile]
  rw [← Real.exp_add]
  congr 1
  ring

/-- The kernel weight of an offset pair is strictly positive. -/
theorem weightOf_pos (p : TimeOfWeekProfile) (day : ℤ) (frq : ℚ) (pr : ℤ × ℤ) :
    0 < weightOf p day frq pr :=
  gaussian_weight_pos p _ _

/-- Bins not targeted by any pair of the `add_sample` fold are unchanged. -/
theorem foldl_addStep_other (p : TimeOfWeekProfile) (day time_bin : ℤ) (frq : ℚ) (v : ℝ)
    (L : List (ℤ × ℤ)) (b : ℤ → ℤ → Bin) (D T : ℤ)
    (h : ∀ pr ∈ L, ¬(D = (day + pr.1) % 7 ∧ T = (time_bin + pr.2) % (p.time_bins : ℤ))) :
    (L.foldl (addStep p day time_bin frq v) b) D T = b D T := by
  induction L generalizing b with
  | nil => rfl
  | cons q L ih =>
    rw [List.foldl_cons, ih _ (fun pr hpr => h pr (List.mem_cons_of_mem q hpr))]
    simp only [addStep]
    split_ifs with hw
    · dsimp only
      rw [if_neg (h q (List.mem_cons_self q L))]
    · rfl

/-- The bin targeted by a pair of the `add_sample` fold accumulates exactly
that pair's weighted contribution, provided the fold's pairs hit pairwise
distinct bins. -/
theorem foldl_addStep_hit (p : TimeOfWeekProfile) (day time_bin : ℤ) (frq : ℚ) (v : ℝ) :
    ∀ (L : List (ℤ × ℤ)) (b : ℤ → ℤ → Bin) (pr : ℤ × ℤ), pr ∈ L → L.Nodup →
      (∀ q1 ∈ L, ∀ q2 ∈ L, (day + q1.1) % 7 = (day + q2.1) % 7 →
        (time_bin + q1.2) % (p.time_bins : ℤ) = (time_bin + q2.2) % (p.time_bins : ℤ) →
        q1 = q2) →
      (L.foldl (addStep p day time_bin frq v) b) ((day + pr.1) % 7)
          ((time_bin + pr.2) % (p.time_bins : ℤ)) =
        if 1/100 < weightOf p day frq pr then
          ((b ((day + pr.1) % 7) ((time_bin + pr.2) % (p.time_bins : ℤ))).1 +
             v * weightOf p day frq pr,
           (b ((day + pr.1) % 7) ((time_bin + pr.2) % (p.time_bins : ℤ))).2.1 +
             v^2 * weightOf p day frq pr,
           (b ((day + pr.1) % 7) ((time_bin + pr.2) % (p.time_bins : ℤ))).2.2 +
             weightOf p day frq pr)
        else b ((day + pr.1) % 7) ((time_bin + pr.2) % (p.time_bins : ℤ)) := by
  intro L
  induction L with
  | nil => intro b pr hmem; exact absurd hmem (List.not_mem_nil pr)
  | cons q L ih =>
    intro b pr hmem hnd hinj
    rw [List.foldl_cons]
    rcases List.mem_cons.mp hmem with heq | hmem2
    · subst heq
      have hnotin : ∀ r ∈ L, ¬((pr.1 + day) % 7 = (day + r.1) % 7 ∧
          (time_bin + pr.2) % (p.time_bins : ℤ) = (time_bin + r.2) % (p.time_bins : ℤ)) := by
        intro r hr hand
        have hpr_r : pr = r := hinj pr (List.mem_cons_self _ _) r
          (List.mem_cons_of_mem _ hr) (by rw [← hand.1]; ring_nf) hand.2
        exact (List.nodup_cons.mp hnd).1 (hpr_r ▸ hr)
      rw [foldl_addStep_other p day time_bin frq v L _ _ _
        (fun r hr hand => hnotin r hr ⟨by rw [← hand.1]; ring_nf, hand.2⟩)]
      simp only [addStep, weightOf]
      split_ifs with hw
      · dsimp only
        rw [if_pos ⟨rfl, rfl⟩]
      · rfl
    · have hq_ne : pr ≠ q := by
        intro he
        exact (List.nodup_cons.mp hnd).1 (he ▸ hmem2)
      have hkey_ne : ¬((day + pr.1) % 7 = (day + q.1) % 7 ∧
          (time_bin + pr.2) % (p.time_bins : ℤ) = (time_bin + q.2) % (p.time_bins : ℤ)) := by
        intro hand
        exact hq_ne (hinj pr (List.mem_cons_of_mem _ hmem2) q (List.mem_cons_self _ _)
          hand.1 hand.2)
      have hb2 : (addStep p day time_bin frq v b q) ((day + pr.1) % 7)
          ((time_bin + pr.2) % (p.time_bins : ℤ)) =
          b ((day + pr.1) % 7) ((time_bin + pr.2) % (p.time_bins : ℤ)) := by
        simp only [addStep]
        split_ifs with hw
        · dsimp only
          rw [if_neg hkey_ne]
        · rfl
      rw [ih (addStep p day time_bin frq v b q) pr hmem2 (List.nodup_cons.mp hnd).2
        (fun q1 h1 q2 h2 => hinj q1 (List.mem_cons_of_mem _ h1) q2
          (List.mem_cons_of_mem _ h2)), hb2]

/-- The offset pairs are pairwise distinct. -/
theorem offsetPairs_nodup : offsetPairs.Nodup := by decide

/-- Distinct offset pairs target distinct bins of the standard grid. -/
theorem offsetPairs_key_inj (day tb : ℤ) :
    ∀ q1 ∈ offsetPairs, ∀ q2 ∈ offsetPairs,
      (day + q1.1) % 7 = (day + q2.1) % 7 →
      (tb + q1.2) % (standardProfile.time_bins : ℤ) =
        (tb + q2.2) % (standardProfile.time_bins : ℤ) →
      q1 = q2 := by
  intro q1 h1 q2 h2 hd ht
  have h48 : ((standardProfile.time_bins : ℕ) : ℤ) = 48 := rfl
  rw [h48] at ht
  obtain ⟨a1, a2, a3, a4⟩ := offsetPairs_bounds q1 h1
  obtain ⟨b1, b2, b3, b4⟩ := offsetPairs_bounds q2 h2
  have e1 : q1.1 = q2.1 := by omega
  have e2 : q1.2 = q2.2 := by omega
  exact Prod.ext e1 e2

/-- The raw Gaussian application occurring in the loop bodies, folded into
`weightOf`. -/
theorem weightOf_unfold (p : TimeOfWeekProfile) (day : ℤ) (frq : ℚ) (pr : ℤ × ℤ) :
    p.gaussian_weight (|(pr.2 : ℝ) - ((frq : ℚ) : ℝ) + 1/2|)
      (((day_distance day ((day + pr.1) % 7) : ℚ) : ℝ)) = weightOf p day frq pr := rfl

/-- The single-sample contribution is nonnegative. -/
theorem twContrib_nonneg (p : TimeOfWeekProfile) (day : ℤ) (frq : ℚ) (pr : ℤ × ℤ) :
    0 ≤ twContrib p day frq pr := by
  unfold twContrib
  split_ifs with h
  · positivity
  · exact le_rfl

/-- The fraction left over by a natural division by 30. -/
theorem frac_eq (m : ℕ) : (m : ℚ) / 30 - ((m / 30 : ℕ) : ℚ) = ((m % 30 : ℕ) : ℚ) / 30 := by
  have h : (30 : ℚ) * ((m / 30 : ℕ) : ℚ) + ((m % 30 : ℕ) : ℚ) = (m : ℚ) := by
    exact_mod_cast congrArg (fun n : ℕ => (n : ℚ)) (Nat.div_add_mod m 30)
  field_simp
  linarith [h]

/-- At fractional position `k/30` the kernel weight of an offset pair is
`exp (-qExp)` at that pair's day distance. -/
theorem weightOf_eq (day : ℤ) (k : ℕ) (pr : ℤ × ℤ) :
    weightOf standardProfile day ((k:ℚ)/30) pr =
      Real.exp (-((qExp (day_distance day ((day + pr.1) % 7)) pr.2 k : ℚ) : ℝ)) := by
  simp only [weightOf, standard_gauss, qExp, timeDistQ]
  congr 1
  push_cast
  ring

/-- Each query contribution of the single-sample profile equals the bin's
weighted self-contribution `(v, v^2, 1) * twContrib`. -/
theorem queryContrib_single (day tb : ℤ) (frq : ℚ) (v : ℝ) (pr : ℤ × ℤ)
    (hmem : pr ∈ offsetPairs) :
    queryContrib standardProfile
      (offsetPairs.foldl (addStep standardProfile day tb frq v) standardProfile.bins)
      day tb frq pr =
      (v * twContrib standardProfile day frq pr,
       v^2 * twContrib standardProfile day frq pr,
       twContrib standardProfile day frq pr) := by
  have hread := foldl_addStep_hit standardProfile day tb frq v offsetPairs
    standardProfile.bins pr hmem offsetPairs_nodup (offsetPairs_key_inj day tb)
  have hsb : standardProfile.bins ((day + pr.1) % 7)
      ((tb + pr.2) % (standardProfile.time_bins : ℤ)) = (0, 0, 0) := rfl
  rw [hsb] at hread
  have hread2 : (offsetPairs.foldl (addStep standardProfile day tb frq v)
      standardProfile.bins) ((day + pr.1) % 7)
        ((tb + pr.2) % (standardProfile.time_bins : ℤ)) =
      if 1/100 < weightOf standardProfile day frq pr then
        (v * weightOf standardProfile day frq pr,
         v^2 * weightOf standardProfile day frq pr,
         weightOf standardProfile day frq pr)
      else (0, 0, 0) := by
    rw [hread]
    split_ifs with h
    · norm_num
    · rfl
  simp only [queryContrib, weightOf_unfold, twContrib]
  rw [hread2]
  have hpos := weightOf_pos standardProfile day frq pr
  generalize hW : weightOf standardProfile day frq pr = W at hpos ⊢
  have hne : W ≠ 0 := ne_of_gt hpos
  by_cases hw1 : 1/100 < W
  · rw [if_pos hw1]
    by_cases hw2 : W < 1/2
    · rw [if_pos (show (v * W, v^2 * W, W).2.2 < 1/2 from hw2), if_neg (not_le.mpr hw2)]
      norm_num
    · rw [if_neg (show ¬ ((v * W, v^2 * W, W).2.2 < 1/2) from hw2),
        if_pos (not_lt.mp hw2)]
      show ((v * W) / W * (W * W), (v^2 * W) / W * (W * W), W * W) = _
      simp only [Prod.mk.injEq]
      rw [mul_div_cancel_right₀ v hne, mul_div_cancel_right₀ (v^2) hne]
      refine ⟨by ring, by ring, by ring⟩
  · rw [if_neg hw1]
    have hsmall : ¬ ((1:ℝ)/2 ≤ W) := by
      push_neg at hw1 ⊢
      linarith
    rw [if_pos (show ((0:ℝ), (0:ℝ), (0:ℝ)).2.2 < 1/2 from by norm_num), if_neg hsmall]
    norm_num

/-- The totals of the single-sample profile query. -/
theorem queryTotals_single (day tb : ℤ) (frq : ℚ) (v : ℝ) :
    queryTotals standardProfile
      (offsetPairs.foldl (addStep standardProfile day tb frq v) standardProfile.bins)
      day tb frq =
      (v * (offsetPairs.map fun pr => twContrib standardProfile day frq pr).sum,
       v^2 * (offsetPairs.map fun pr => twContrib standardProfile day frq pr).sum,
       (offsetPairs.map fun pr => twContrib standardProfile day frq pr).sum) := by
  have h1 : ∀ pr ∈ offsetPairs,
      (queryContrib standardProfile
        (offsetPairs.foldl (addStep standardProfile day tb frq v) standardProfile.bins)
        day tb frq pr).1 = v * twContrib standardProfile day frq pr := by
    intro pr h
    rw [queryContrib_single day tb frq v pr h]
  have h2 : ∀ pr ∈ offsetPairs,
      (queryContrib standardProfile
        (offsetPairs.foldl (addStep standardProfile day tb frq v) standardProfile.bins)
        day tb frq pr).2.1 = v^2 * twContrib standardProfile day frq pr := by
    intro pr h
    rw [queryContrib_single day tb frq v pr h]
  have h3 : ∀ pr ∈ offsetPairs,
      (queryContrib standardProfile
        (offsetPairs.foldl (addStep standardProfile day tb frq v) standardProfile.bins)
        day tb frq pr).2.2 = twContrib standardProfile day frq pr := by
    intro pr h
    rw [queryContrib_single day tb frq v pr h]
  simp only [queryTotals, Prod.mk.injEq]
  refine ⟨?_, ?_, ?_⟩
  · rw [List.map_congr_left h1, List.sum_map_mul_left]
  · rw [List.map_congr_left h2, List.sum_map_mul_left]
  · rw [List.map_congr_left h3]

/-- The certified lower bound is pointwise below the actual single-sample
contribution. -/
theorem certBound_le_twContrib (day : ℤ) (k : ℕ) (hday0 : 0 ≤ day) (hday7 : day < 7)
    (hdaymod : day % 7 = day) (pr : ℤ × ℤ) :
    certBound (neighborDay day) k pr ≤ twContrib standardProfile day ((k:ℚ)/30) pr := by
  have hgen : ∀ dd2 : ℤ, 0 ≤ dd2 →
      day_distance day ((day + pr.1) % 7) ^ 2 = (dd2 : ℚ) →
      certOK dd2 pr.2 k = true →
      (((lbNum (numA dd2 pr.2 k) : ℚ) / (96 * (28800:ℚ)^4) : ℚ) : ℝ)^2 ≤
        twContrib standardProfile day ((k:ℚ)/30) pr := by
    intro dd2 hdd2 hddsq hok
    obtain ⟨hA, hB⟩ := certOK_spec hok
    have hq_eq : qExp (day_distance day ((day + pr.1) % 7)) pr.2 k =
        (numA dd2 pr.2 k : ℚ) / 28800 := qExp_eq dd2 _ hddsq pr.2 k
    have hq0 : (0:ℚ) ≤ (numA dd2 pr.2 k : ℚ) / 28800 := by
      have := numA_nonneg hdd2 pr.2 k
      positivity
    have hq1 : (numA dd2 pr.2 k : ℚ) / 28800 ≤ 1 := by
      rw [div_le_one (by norm_num)]
      exact_mod_cast hA
    have hlb_half : (1:ℚ)/2 ≤ lbPoly ((numA dd2 pr.2 k : ℚ) / 28800) := by
      rw [lbPoly_div, le_div_iff (by positivity)]
      have : ((96 * scaleD^4 : ℤ) : ℚ) ≤ ((2 * lbNum (numA dd2 pr.2 k) : ℤ) : ℚ) := by
        exact_mod_cast hB
      simp only [scaleD] at this
      push_cast at this
      linarith
    have hw_eq := weightOf_eq day k pr
    have hw_ge : (((lbPoly ((numA dd2 pr.2 k : ℚ) / 28800) : ℚ)) : ℝ) ≤
        weightOf standardProfile day ((k:ℚ)/30) pr := by
      rw [hw_eq, hq_eq]
      exact lbPoly_le_exp _ hq0 hq1
    have hcast_half : (((1:ℚ)/2 : ℚ) : ℝ) ≤
        ((lbPoly ((numA dd2 pr.2 k : ℚ) / 28800) : ℚ) : ℝ) := Rat.cast_le.mpr hlb_half
    have hhalf2 : (1/2 : ℝ) ≤ ((lbPoly ((numA dd2 pr.2 k : ℚ) / 28800) : ℚ) : ℝ) := by
      have h12 : (((1:ℚ)/2 : ℚ) : ℝ) = 1/2 := by norm_num
      linarith [hcast_half]
    have hhalf : (1/2 : ℝ) ≤ weightOf standardProfile day ((k:ℚ)/30) pr :=
      le_trans hhalf2 hw_ge
    unfold twContrib
    rw [if_pos hhalf]
    have hlb_nonneg : (0:ℝ) ≤ ((lbPoly ((numA dd2 pr.2 k : ℚ) / 28800) : ℚ) : ℝ) := by
      linarith [hhalf2]
    calc (((lbNum (numA dd2 pr.2 k) : ℚ) / (96 * (28800:ℚ)^4) : ℚ) : ℝ)^2
        = (((lbPoly ((numA dd2 pr.2 k : ℚ) / 28800) : ℚ)) : ℝ)^2 := by rw [lbPoly_div]
      _ ≤ (weightOf standardProfile day ((k:ℚ)/30) pr)^2 := by
          exact pow_le_pow_left hlb_nonneg hw_ge 2
  unfold certBound
  split_ifs with hc1 hc2
  · refine hgen 0 le_rfl ?_ hc1.2
    rw [hc1.1, add_zero, hdaymod, day_distance_self]
    norm_num
  · refine hgen 1 zero_le_one ?_ hc2.2
    rw [hc2.1, day_distance_neighbor day hday0 hday7]
    norm_num
  · exact twContrib_nonneg _ _ _ _

/-- Summing the certified bounds over all offset pairs yields the two
certified rows. -/
theorem certBound_sum (day : ℤ) (k : ℕ) :
    (offsetPairs.map fun pr => certBound (neighborDay day) k pr).sum =
      ((certifiedRow 0 k : ℚ) : ℝ) + ((certifiedRow 1 k : ℚ) : ℝ) := by
  rw [certifiedRow_cast, certifiedRow_cast, offsetPairs_eq_list]
  rcases neighborDay_cases day with h | h <;>
    rw [h] <;>
    simp only [certBound, timeOffsets, List.map_cons, List.map_nil, List.sum_cons,
      List.sum_nil] <;>
    norm_num <;>
    ring

/-- The final `get_expected` step on totals of the shape `(v*S, v^2*S, S)`
with `S ≥ 3`: the guard passes and the mean is exactly `v`. -/
theorem expectedFromTotals_scaled (v S : ℝ) (h3 : (3:ℝ) ≤ S) :
    ∃ std : ℝ, expectedFromTotals (v * S, v^2 * S, S) = some (v, std) := by
  have hpos : (0:ℝ) < S := lt_of_lt_of_le (by norm_num) h3
  have hne : S ≠ 0 := ne_of_gt hpos
  have hlt : ¬ (S < 3) := not_lt.mpr h3
  refine ⟨if 0 < max 0 (v^2 * S / S - (v * S / S)^2) then
      Real.sqrt (max 0 (v^2 * S / S - (v * S / S)^2)) else 5, ?_⟩
  simp only [expectedFromTotals]
  rw [if_neg hlt]
  have hm : v * S / S = v := mul_div_cancel_right₀ v hne
  rw [hm]

/-- C5: `get_expected` on a profile holding zero samples returns `none`
(the code's `(None, None)`); and for every timestamp `t` and level `v`,
after exactly one `add_sample t v` on the fresh standard profile,
`get_expected t` returns a non-null expected mean exactly equal to `v`:
the sample's own kernel weight lands back on each warm bin, the total
weight passes the `≥ 3` guard, and every warm bin's mean is `v`. -/
theorem C5_single_sample_mean (t : ℕ) (v : ℝ) :
    standardProfile.get_expected t = none ∧
    ∃ std : ℝ, (standardProfile.add_sample t (some v)).get_expected t = some (v, std) := by
  constructor
  · exact get_expected_of_zero_bins 48 2 1 t
  · have hday_eq : (standardProfile.timestamp_to_coords t).1 =
        (((t / 86400 : ℕ) : ℤ) + 3) % 7 := rfl
    have hday0 : 0 ≤ (standardProfile.timestamp_to_coords t).1 := by
      rw [hday_eq]
      exact Int.emod_nonneg _ (by norm_num)
    have hday7 : (standardProfile.timestamp_to_coords t).1 < 7 := by
      rw [hday_eq]
      exact Int.emod_lt_of_pos _ (by norm_num)
    have hdaymod : (standardProfile.timestamp_to_coords t).1 % 7 =
        (standardProfile.timestamp_to_coords t).1 := by
      rw [hday_eq]
      exact Int.emod_emod_of_dvd _ dvd_rfl
    have hfrq_eq : (standardProfile.timestamp_to_coords t).2.2 =
        ((t % 86400 / 60 : ℕ) : ℚ) / ((30 : ℕ) : ℚ) -
          (((t % 86400 / 60) / 30 : ℕ) : ℚ) := rfl
    obtain ⟨k, hk30, hfrq⟩ : ∃ k : ℕ, k < 30 ∧
        (standardProfile.timestamp_to_coords t).2.2 = (k : ℚ) / 30 := by
      refine ⟨(t % 86400 / 60) % 30, Nat.mod_lt _ (by norm_num), ?_⟩
      rw [hfrq_eq, show ((30 : ℕ) : ℚ) = (30 : ℚ) by norm_num]
      exact frac_eq (t % 86400 / 60)
    have hc2 : ((3:ℚ):ℝ) ≤ (((certifiedRow 0 k + certifiedRow 1 k) : ℚ) : ℝ) :=
      Rat.cast_le.mpr (certified_rows_ge_three hk30)
    push_cast at hc2
    have hS3 : (3:ℝ) ≤ (offsetPairs.map fun pr =>
        twContrib standardProfile (standardProfile.timestamp_to_coords t).1
          ((k : ℚ) / 30) pr).sum := by
      calc (3:ℝ) ≤ ((certifiedRow 0 k : ℚ) : ℝ) + ((certifiedRow 1 k : ℚ) : ℝ) := hc2
        _ = (offsetPairs.map fun pr =>
              certBound (neighborDay (standardProfile.timestamp_to_coords t).1) k pr).sum :=
            (certBound_sum _ k).symm
        _ ≤ _ := List.sum_le_sum fun pr _ =>
            certBound_le_twContrib _ k hday0 hday7 hdaymod pr
    rw [get_expected_eq]
    show ∃ std : ℝ, expectedFromTotals (queryTotals standardProfile
        (offsetPairs.foldl (addStep standardProfile
          (standardProfile.timestamp_to_coords t).1
          (standardProfile.timestamp_to_coords t).2.1
          (standardProfile.timestamp_to_coords t).2.2 v) standardProfile.bins)
        (standardProfile.timestamp_to_coords t).1
        (standardProfile.timestamp_to_coords t).2.1
        (standardProfile.timestamp_to_coords t).2.2) = some (v, std)
    rw [hfrq, queryTotals_single]
    exact expectedFromTotals_scaled v _ hS3

end NoisyPi

end
